import Mathlib

/-!
Shallow Lean embedding of the `@graphql-mesh/store` package
(`src/packages/store/src/index.ts`): the `MeshStore` namespace hierarchy,
its per-key `StoreProxy` lazy cache, the in-memory storage adapter, the
filesystem adapter's write path, and the predefined
`GraphQLSchemaWithDiffing` validation strategy.

Modelling conventions:
* JavaScript values of the generic `TData` are an arbitrary type `α`
  together with an explicit truthiness predicate `truthy : α → Bool`
  (the source tests `if (value && newValue)` on raw JS values).
* The proxy's closure state (`value`, `isValueCached`) plus the in-memory
  adapter's backing `Map` form an explicit state record `PState`.
* Thrown errors become `Except StoreError`; each proxy operation returns
  its result, the post state, and a trace of adapter / strategy
  invocations (`Event`), so that "write is never invoked" style frame
  claims are statable.
-/

namespace MeshStoreModel

/-- `StoreFlags` from the source: `{ readonly: boolean; validate: boolean }`. -/
structure StoreFlags where
  readonly : Bool
  validate : Bool
deriving DecidableEq, Repr

/-- `Partial<StoreFlags>` as used by `child(childIdentifier, flags?)`:
each field optionally overridden. -/
structure PartialStoreFlags where
  readonly : Option Bool := none
  validate : Option Bool := none
deriving DecidableEq, Repr

/-- The spread-merge `{ ...this.flags, ...flags }`: override fields win
when present. -/
def mergeFlags (base : StoreFlags) (o : PartialStoreFlags) : StoreFlags :=
  { readonly := o.readonly.getD base.readonly
    validate := o.validate.getD base.validate }

/-- Modelled from the spec: Node's `join` from `'path'` (not repository
code) on plain path segments — "a hierarchical path string built by
joining a store's namespace identifier with a proxy key (e.g.
`root/child/key`)". Joining onto an empty identifier yields the segment
itself; otherwise the two parts are separated by `/`. Normalisation of
`..`/`.` segments is not modelled. -/
def pathJoin (a b : String) : String :=
  if a = "" then b else a ++ "/" ++ b

/-- A `MeshStore` node: `identifier`, a shared reference to one storage
adapter (represented by an arbitrary type `ρ`, preserved by `child`),
and its `StoreFlags`. -/
structure MeshStore (ρ : Type) where
  identifier : String
  storage : ρ
  flags : StoreFlags
deriving DecidableEq, Repr

/-- `child(childIdentifier, flags?)` from the source: a new node whose
identifier is `join(this.identifier, childIdentifier)`, sharing the same
storage adapter, with flags spread-merged. -/
def MeshStore.child (s : MeshStore ρ) (childIdentifier : String)
    (flags : PartialStoreFlags := {}) : MeshStore ρ :=
  { identifier := pathJoin s.identifier childIdentifier
    storage := s.storage
    flags := mergeFlags s.flags flags }

/-- The resolved storage key of `proxy(id, options)`:
`const path = join(this.identifier, id)`. -/
def MeshStore.proxyPath (s : MeshStore ρ) (id : String) : String :=
  pathJoin s.identifier id

/-- The two error classes of the source, `ReadonlyStoreError` and
`ValidationError`, each carrying its `message`. -/
inductive StoreError where
  | readonlyStore (message : String)
  | validation (message : String)
deriving DecidableEq, Repr

/-- Message of `new ReadonlyStoreError(...)` thrown by `set`. -/
def readonlyMessage (id identifier : String) : String :=
  "Unable to set value for \"" ++ id ++ "\" under \"" ++ identifier ++
    "\" because the store is in read-only mode."

/-- Message of `new ValidationError(...)` thrown by `doValidation`,
wrapping the strategy error's message `m`. -/
def validationMessage (id identifier m : String) : String :=
  "Validation failed for \"" ++ id ++ "\" under \"" ++ identifier ++ "\": " ++ m

/-- One observable invocation made by a proxy operation: the four
`StoreStorageAdapter` operations (with the key they receive) and a call
to the strategy's `validate` (with the arguments it receives). -/
inductive Event (α : Type) where
  | existsCheck (key : String)
  | readOp (key : String)
  | writeOp (key : String) (data : α)
  | deleteOp (key : String)
  | validateCall (oldValue newValue : α) (identifier : String)
deriving DecidableEq, Repr

/-- Whether an event is an adapter `write`. -/
def Event.isWrite : Event α → Bool
  | .writeOp _ _ => true
  | _ => false

/-- Whether an event is a strategy `validate` invocation. -/
def Event.isValidateCall : Event α → Bool
  | .validateCall _ _ _ => true
  | _ => false

/-- Number of strategy `validate` invocations recorded in a trace. -/
def countValidateCalls (l : List (Event α)) : Nat :=
  (l.filter Event.isValidateCall).length

/-- `Map.prototype.set` on an association list keyed by strings: update
in place if the key is present, else append. -/
def mapSet (m : List (String × α)) (k : String) (v : α) : List (String × α) :=
  match m with
  | [] => [(k, v)]
  | (k', v') :: rest => if k' = k then (k, v) :: rest else (k', v') :: mapSet rest k v

/-- `Map.prototype.delete`: drop the entry for `k`. -/
def mapDelete (m : List (String × α)) (k : String) : List (String × α) :=
  m.filter (fun p => p.1 ≠ k)

/-- The mutable state one proxy operation acts on: the in-memory
adapter's backing map (`InMemoryStoreStorageAdapter.data`) together with
the proxy closure's `value` (`TData | null | undefined`, collapsed to
`Option α`) and `isValueCached` variables. -/
structure PState (α : Type) where
  storage : List (String × α)
  value : Option α
  isValueCached : Bool
deriving DecidableEq, Repr

/-- The state of a freshly created proxy over backing storage `m`:
`value` undefined, `isValueCached = false`. -/
def PState.init (m : List (String × α)) : PState α :=
  { storage := m, value := none, isValueCached := false }

/-- Everything a `StoreProxy` closes over: the owning node's
`identifier` and `flags`, the proxy key `id`, JS truthiness on `α`, and
the strategy's `validate` (a thrown error is `.error message`). -/
structure ProxyCtx (α : Type) where
  identifier : String
  id : String
  flags : StoreFlags
  truthy : α → Bool
  validate : α → α → String → Except String Unit

/-- `const path = join(this.identifier, id)` for this proxy. -/
def ProxyCtx.path (c : ProxyCtx α) : String :=
  pathJoin c.identifier c.id

/-- JS truthiness of the closure variable `value : TData | null | undefined`. -/
def ProxyCtx.optTruthy (c : ProxyCtx α) : Option α → Bool
  | none => false
  | some v => c.truthy v

namespace StoreProxy

variable {α : Type}

/-- `ensureValueCached` from the source: if not yet cached, consult the
adapter's `exists(path)` and, when it reports presence, `read(path)`;
then mark the slot cached. The in-memory adapter's `exists`/`read` are
`data.has(key)` / `data.get(key)` on the backing map. -/
def ensureValueCached (c : ProxyCtx α) (s : PState α) : PState α × List (Event α) :=
  if s.isValueCached then (s, [])
  else
    match s.storage.lookup c.path with
    | some v =>
        ({ s with value := some v, isValueCached := true },
          [.existsCheck c.path, .readOp c.path])
    | none =>
        ({ s with isValueCached := true }, [.existsCheck c.path])

/-- `doValidation(newValue)` from the source: ensure the old value is
cached, and when `value && newValue` (JS truthiness) invoke the
strategy's `validate(value, newValue, id)`, wrapping a thrown error as
`ValidationError`. -/
def doValidation (c : ProxyCtx α) (s : PState α) (newValue : α) :
    Except StoreError Unit × PState α × List (Event α) :=
  let p := ensureValueCached c s
  match p.1.value with
  | some oldValue =>
      if c.truthy oldValue && c.truthy newValue then
        match c.validate oldValue newValue c.id with
        | .ok _ =>
            (.ok (), p.1, p.2 ++ [.validateCall oldValue newValue c.id])
        | .error m =>
            (.error (.validation (validationMessage c.id c.identifier m)),
              p.1, p.2 ++ [.validateCall oldValue newValue c.id])
      else (.ok (), p.1, p.2)
  | none => (.ok (), p.1, p.2)

/-- `proxy.set(newValue)` from the source: throw `ReadonlyStoreError`
when the store is read-only; run `doValidation` when the `validate`
flag is set; otherwise update `value`/`isValueCached` and write through
to the adapter. -/
def set (c : ProxyCtx α) (s : PState α) (newValue : α) :
    Except StoreError Unit × PState α × List (Event α) :=
  if c.flags.readonly then
    (.error (.readonlyStore (readonlyMessage c.id c.identifier)), s, [])
  else
    match (if c.flags.validate then doValidation c s newValue else (.ok (), s, [])) with
    | (.error e, s1, ev) => (.error e, s1, ev)
    | (.ok _, s1, ev) =>
        (.ok (),
          { s1 with value := some newValue, isValueCached := true,
                    storage := mapSet s1.storage c.path newValue },
          ev ++ [.writeOp c.path newValue])

/-- `proxy.get()` from the source: ensure cached, return the closure's
`value`. -/
def get (c : ProxyCtx α) (s : PState α) :
    Option α × PState α × List (Event α) :=
  let p := ensureValueCached c s
  (p.1.value, p.1, p.2)

/-- `proxy.getWithSet(setterFn)` from the source, with the candidate
value `setterFn` would produce passed as `candidate`. -/
def getWithSet (c : ProxyCtx α) (s : PState α) (candidate : α) :
    Except StoreError (Option α) × PState α × List (Event α) :=
  let p := ensureValueCached c s
  if c.flags.validate || !(c.optTruthy p.1.value) then
    match (if c.flags.validate && c.flags.readonly
                then doValidation c p.1 candidate
                else (.ok (), p.1, [])) with
    | (.error e, s2, ev2) => (.error e, s2, p.2 ++ ev2)
    | (.ok _, s2, ev2) =>
        if !c.flags.readonly then
          match set c s2 candidate with
          | (.error e, s3, ev3) => (.error e, s3, p.2 ++ ev2 ++ ev3)
          | (.ok _, s3, ev3) => (.ok s3.value, s3, p.2 ++ ev2 ++ ev3)
        else (.ok s2.value, s2, p.2 ++ ev2)
  else (.ok p.1.value, p.1, p.2)

/-- `proxy.delete()` from the source: delegate directly to the
adapter's `delete(path)`; no flag check, no cache-slot change. -/
def del (c : ProxyCtx α) (s : PState α) : PState α × List (Event α) :=
  ({ s with storage := mapDelete s.storage c.path }, [.deleteOp c.path])

end StoreProxy

/-- `CriticalityLevel` of `@graphql-inspector/core`, as consumed by the
source's `GraphQLSchemaWithDiffing.validate`. -/
inductive CriticalityLevel where
  | Breaking
  | Dangerous
  | NonBreaking
deriving DecidableEq, Repr

/-- A `Change` as consumed by `GraphQLSchemaWithDiffing.validate`: its
criticality level and its message. -/
structure Change where
  criticality : CriticalityLevel
  message : String
deriving DecidableEq, Repr

/-- The source's test inside the loop over `diff(oldSchema, newSchema)`:
`change.criticality.level === Breaking || === Dangerous`. -/
def Change.isOffending (ch : Change) : Bool :=
  ch.criticality = CriticalityLevel.Breaking ∨ ch.criticality = CriticalityLevel.Dangerous

/-- `GraphQLSchemaWithDiffing.validate` from the source, parametrised by
the change list the external `diff(oldSchema, newSchema)` collaborator
returns: push the message of every Breaking/Dangerous change, and throw
one `AggregateError` over all of them iff any were collected. -/
def graphQLSchemaWithDiffingValidate (changes : List Change) :
    Except (List String) Unit :=
  let errors := changes.foldl
    (fun acc change => if change.isOffending then acc ++ [change.message] else acc) []
  if errors.length ≠ 0 then .error errors else .ok ()

/-- Modelled from the spec: `flatString` of `@graphql-mesh/utils` (not
repository code) is a "string-flattening normalization" applied before
persisting — semantically the identity on the text. -/
def flatString (s : String) : String := s

/-- `FsStoreStorageAdapter.getWrittenFileName`: `key + '.' + moduleExtension`. -/
def getWrittenFileName (moduleExtension key : String) : String :=
  key ++ "." ++ moduleExtension

/-- `FsStoreStorageAdapter.write` from the source: compute
`options.codify(data, key)` and persist the flattened text at the
written file name. Returns the (file name, file content) pair the call
passes to `writeFile`. -/
def fsWrite (moduleExtension : String) (codify : α → String → String)
    (key : String) (data : α) : String × String :=
  (getWrittenFileName moduleExtension key, flatString (codify data key))

/-! ### Concrete instances used to exercise the model -/

/-- JS truthiness for number-valued artifacts: `0` is falsy. -/
def natTruthy (v : Nat) : Bool := v != 0

/-- A strategy `validate` that always accepts (like the
`JsonWithoutValidation` / `StringWithoutValidation` strategies). -/
def okStrategy : Nat → Nat → String → Except String Unit :=
  fun _ _ _ => .ok ()

/-- A strategy `validate` that always throws, with message `"boom"`. -/
def rejectStrategy : Nat → Nat → String → Except String Unit :=
  fun _ _ _ => .error "boom"

/-- A proxy over key `"k"` of a store node with identifier `"ns"`, with
the given flags and strategy `validate`. -/
def demoCtx (flags : StoreFlags)
    (val : Nat → Nat → String → Except String Unit) : ProxyCtx Nat :=
  { identifier := "ns", id := "k", flags := flags,
    truthy := natTruthy, validate := val }

/-- A concrete root store over a shared adapter reference (modelled by
the token `0`). -/
def demoStore : MeshStore Nat :=
  { identifier := "root", storage := 0,
    flags := { readonly := false, validate := false } }

/-! ### Unfolding and frame lemmas -/

namespace StoreProxy

variable {α : Type} (c : ProxyCtx α) (s : PState α)

theorem ensure_of_cached (h : s.isValueCached = true) :
    ensureValueCached c s = (s, []) := by
  simp [ensureValueCached, h]

theorem ensure_of_hit (v : α) (h : s.isValueCached = false)
    (hl : s.storage.lookup c.path = some v) :
    ensureValueCached c s =
      ({ s with value := some v, isValueCached := true },
        [.existsCheck c.path, .readOp c.path]) := by
  simp [ensureValueCached, h, hl]

theorem ensure_of_miss (h : s.isValueCached = false)
    (hl : s.storage.lookup c.path = none) :
    ensureValueCached c s =
      ({ s with isValueCached := true }, [.existsCheck c.path]) := by
  simp [ensureValueCached, h, hl]

theorem ensure_storage : (ensureValueCached c s).1.storage = s.storage := by
  unfold ensureValueCached
  split
  · rfl
  · split <;> rfl

theorem ensure_isValueCached : (ensureValueCached c s).1.isValueCached = true := by
  unfold ensureValueCached
  split
  · simpa using by assumption
  · split <;> rfl

theorem ensure_events :
    ∀ e ∈ (ensureValueCached c s).2,
      e = Event.existsCheck c.path ∨ e = Event.readOp c.path := by
  unfold ensureValueCached
  split
  · simp
  · split <;> simp

theorem get_of_cached (h : s.isValueCached = true) :
    get c s = (s.value, s, []) := by
  simp [get, ensure_of_cached c s h]

theorem doValidation_storage (newValue : α) :
    (doValidation c s newValue).2.1.storage = s.storage := by
  rcases hp : ensureValueCached c s with ⟨s1, ev1⟩
  have h : s1.storage = s.storage := by
    have h0 := ensure_storage c s
    rw [hp] at h0
    exact h0
  cases hv : s1.value with
  | none => simp [doValidation, hp, hv, h]
  | some old =>
    simp only [doValidation, hp, hv]
    split
    · cases hval : c.validate old newValue c.id <;> simp [hval, h]
    · simpa using h

theorem doValidation_state (newValue : α) :
    (doValidation c s newValue).2.1 = (ensureValueCached c s).1 := by
  rcases hp : ensureValueCached c s with ⟨s1, ev1⟩
  cases hv : s1.value with
  | none => simp [doValidation, hp, hv]
  | some old =>
    simp only [doValidation, hp, hv]
    split
    · cases hval : c.validate old newValue c.id <;> simp [hval]
    · simp

theorem doValidation_of_none (newValue : α)
    (h : (ensureValueCached c s).1.value = none) :
    doValidation c s newValue =
      (.ok (), (ensureValueCached c s).1, (ensureValueCached c s).2) := by
  rcases hp : ensureValueCached c s with ⟨s1, ev1⟩
  have h1 : s1.value = none := by rw [hp] at h; exact h
  simp [doValidation, hp, h1]

theorem doValidation_of_falsy (newValue old : α)
    (h : (ensureValueCached c s).1.value = some old)
    (ht : (c.truthy old && c.truthy newValue) = false) :
    doValidation c s newValue =
      (.ok (), (ensureValueCached c s).1, (ensureValueCached c s).2) := by
  rcases hp : ensureValueCached c s with ⟨s1, ev1⟩
  have h1 : s1.value = some old := by rw [hp] at h; exact h
  simp [doValidation, hp, h1, ht]

theorem doValidation_of_ok (newValue old : α) (u : Unit)
    (h : (ensureValueCached c s).1.value = some old)
    (ht : (c.truthy old && c.truthy newValue) = true)
    (hval : c.validate old newValue c.id = .ok u) :
    doValidation c s newValue =
      (.ok (), (ensureValueCached c s).1,
        (ensureValueCached c s).2 ++ [.validateCall old newValue c.id]) := by
  rcases hp : ensureValueCached c s with ⟨s1, ev1⟩
  have h1 : s1.value = some old := by rw [hp] at h; exact h
  simp [doValidation, hp, h1, ht, hval]

theorem doValidation_of_error (newValue old : α) (m : String)
    (h : (ensureValueCached c s).1.value = some old)
    (ht : (c.truthy old && c.truthy newValue) = true)
    (hval : c.validate old newValue c.id = .error m) :
    doValidation c s newValue =
      (.error (.validation (validationMessage c.id c.identifier m)),
        (ensureValueCached c s).1,
        (ensureValueCached c s).2 ++ [.validateCall old newValue c.id]) := by
  rcases hp : ensureValueCached c s with ⟨s1, ev1⟩
  have h1 : s1.value = some old := by rw [hp] at h; exact h
  simp [doValidation, hp, h1, ht, hval]

theorem doValidation_events (newValue : α) :
    ∀ e ∈ (doValidation c s newValue).2.2,
      e = Event.existsCheck c.path ∨ e = Event.readOp c.path ∨
        ∃ old, e = Event.validateCall old newValue c.id ∧
          c.truthy old = true ∧ c.truthy newValue = true := by
  intro e he
  rcases hp : ensureValueCached c s with ⟨s1, ev1⟩
  have hev : ∀ x ∈ ev1, x = Event.existsCheck c.path ∨ x = Event.readOp c.path := by
    have h0 := ensure_events c s
    rw [hp] at h0
    exact h0
  cases hv : s1.value with
  | none =>
    rw [doValidation_of_none c s newValue (by rw [hp]; exact hv), hp] at he
    rcases hev e he with h | h
    · exact Or.inl h
    · exact Or.inr (Or.inl h)
  | some old =>
    cases ht : c.truthy old && c.truthy newValue with
    | false =>
      rw [doValidation_of_falsy c s newValue old (by rw [hp]; exact hv) ht, hp] at he
      rcases hev e he with h | h
      · exact Or.inl h
      · exact Or.inr (Or.inl h)
    | true =>
      have htr := ht
      rw [Bool.and_eq_true] at htr
      have hmem : e ∈ ev1 ++ [Event.validateCall old newValue c.id] := by
        cases hval : c.validate old newValue c.id with
        | ok u =>
          rw [doValidation_of_ok c s newValue old u (by rw [hp]; exact hv) ht hval, hp] at he
          exact he
        | error m =>
          rw [doValidation_of_error c s newValue old m (by rw [hp]; exact hv) ht hval, hp] at he
          exact he
      rcases List.mem_append.mp hmem with h | h
      · rcases hev e h with h' | h'
        · exact Or.inl h'
        · exact Or.inr (Or.inl h')
      · refine Or.inr (Or.inr ⟨old, ?_, htr.1, htr.2⟩)
        simpa using h

theorem set_of_readonly (newValue : α) (h : c.flags.readonly = true) :
    set c s newValue =
      (.error (.readonlyStore (readonlyMessage c.id c.identifier)), s, []) := by
  simp [set, h]

theorem set_of_validate_error (newValue : α) (e : StoreError) (s1 : PState α)
    (ev : List (Event α))
    (hr : c.flags.readonly = false) (hv : c.flags.validate = true)
    (hd : doValidation c s newValue = (.error e, s1, ev)) :
    set c s newValue = (.error e, s1, ev) := by
  simp [set, hr, hv, hd]

theorem set_of_validate_ok (newValue : α) (u : Unit) (s1 : PState α)
    (ev : List (Event α))
    (hr : c.flags.readonly = false) (hv : c.flags.validate = true)
    (hd : doValidation c s newValue = (.ok u, s1, ev)) :
    set c s newValue =
      (.ok (),
        { s1 with value := some newValue, isValueCached := true,
                  storage := mapSet s1.storage c.path newValue },
        ev ++ [.writeOp c.path newValue]) := by
  simp [set, hr, hv, hd]

theorem set_of_no_validate (newValue : α)
    (hr : c.flags.readonly = false) (hv : c.flags.validate = false) :
    set c s newValue =
      (.ok (),
        { s with value := some newValue, isValueCached := true,
                 storage := mapSet s.storage c.path newValue },
        [.writeOp c.path newValue]) := by
  simp [set, hr, hv]

theorem getWithSet_of_skip (candidate : α)
    (hcond : (c.flags.validate ||
        !(c.optTruthy (ensureValueCached c s).1.value)) = false) :
    getWithSet c s candidate =
      (.ok (ensureValueCached c s).1.value,
        (ensureValueCached c s).1, (ensureValueCached c s).2) := by
  simp only [getWithSet, hcond]
  simp

theorem getWithSet_of_writable_ok (candidate : α) (u : Unit) (s3 : PState α)
    (ev3 : List (Event α))
    (hr : c.flags.readonly = false)
    (hcond : (c.flags.validate ||
        !(c.optTruthy (ensureValueCached c s).1.value)) = true)
    (hset : set c (ensureValueCached c s).1 candidate = (.ok u, s3, ev3)) :
    getWithSet c s candidate =
      (.ok s3.value, s3, (ensureValueCached c s).2 ++ ev3) := by
  simp [getWithSet, hcond, hr, hset]

theorem getWithSet_of_writable_error (candidate : α) (e : StoreError)
    (s3 : PState α) (ev3 : List (Event α))
    (hr : c.flags.readonly = false)
    (hcond : (c.flags.validate ||
        !(c.optTruthy (ensureValueCached c s).1.value)) = true)
    (hset : set c (ensureValueCached c s).1 candidate = (.error e, s3, ev3)) :
    getWithSet c s candidate =
      (.error e, s3, (ensureValueCached c s).2 ++ ev3) := by
  simp [getWithSet, hcond, hr, hset]

theorem getWithSet_of_ro_validate_error (candidate : α) (e : StoreError)
    (s2 : PState α) (ev2 : List (Event α))
    (hr : c.flags.readonly = true) (hv : c.flags.validate = true)
    (hd : doValidation c (ensureValueCached c s).1 candidate = (.error e, s2, ev2)) :
    getWithSet c s candidate =
      (.error e, s2, (ensureValueCached c s).2 ++ ev2) := by
  simp [getWithSet, hr, hv, hd]

theorem getWithSet_of_ro_validate_ok (candidate : α) (u : Unit)
    (s2 : PState α) (ev2 : List (Event α))
    (hr : c.flags.readonly = true) (hv : c.flags.validate = true)
    (hd : doValidation c (ensureValueCached c s).1 candidate = (.ok u, s2, ev2)) :
    getWithSet c s candidate =
      (.ok s2.value, s2, (ensureValueCached c s).2 ++ ev2) := by
  simp [getWithSet, hr, hv, hd]

theorem getWithSet_of_ro_no_validate_absent (candidate : α)
    (hr : c.flags.readonly = true) (hv : c.flags.validate = false)
    (hcond : c.optTruthy (ensureValueCached c s).1.value = false) :
    getWithSet c s candidate =
      (.ok (ensureValueCached c s).1.value,
        (ensureValueCached c s).1, (ensureValueCached c s).2) := by
  simp [getWithSet, hr, hv, hcond]

theorem doValidation_cached_error (newValue old : α) (m : String)
    (hc : s.isValueCached = true) (hval : s.value = some old)
    (ht : c.truthy old = true) (htn : c.truthy newValue = true)
    (hstrat : c.validate old newValue c.id = .error m) :
    doValidation c s newValue =
      (.error (.validation (validationMessage c.id c.identifier m)), s,
        [Event.validateCall old newValue c.id]) := by
  have he := ensure_of_cached c s hc
  have hd := doValidation_of_error c s newValue old m (by rw [he]; exact hval)
      (by rw [ht, htn]; rfl) hstrat
  rw [he] at hd
  simpa using hd

theorem doValidation_cached_ok (newValue old : α) (u : Unit)
    (hc : s.isValueCached = true) (hval : s.value = some old)
    (ht : c.truthy old = true) (htn : c.truthy newValue = true)
    (hstrat : c.validate old newValue c.id = .ok u) :
    doValidation c s newValue =
      (.ok (), s, [Event.validateCall old newValue c.id]) := by
  have he := ensure_of_cached c s hc
  have hd := doValidation_of_ok c s newValue old u (by rw [he]; exact hval)
      (by rw [ht, htn]; rfl) hstrat
  rw [he] at hd
  simpa using hd

theorem countValidateCalls_append (l1 l2 : List (Event α)) :
    countValidateCalls (l1 ++ l2) = countValidateCalls l1 + countValidateCalls l2 := by
  simp [countValidateCalls, List.filter_append]

theorem ensure_count_validate : countValidateCalls (ensureValueCached c s).2 = 0 := by
  unfold ensureValueCached
  split
  · simp [countValidateCalls]
  · split <;> simp [countValidateCalls, Event.isValidateCall]

theorem doValidation_count_le_one (v : α) :
    countValidateCalls (doValidation c s v).2.2 ≤ 1 := by
  have hE := ensure_count_validate c s
  cases hval : (ensureValueCached c s).1.value with
  | none =>
    rw [doValidation_of_none c s v hval]
    simp [hE]
  | some old =>
    by_cases ht : (c.truthy old && c.truthy v) = true
    · cases hvv : c.validate old v c.id with
      | ok u =>
        rw [doValidation_of_ok c s v old u hval ht hvv]
        show countValidateCalls
          ((ensureValueCached c s).2 ++ [Event.validateCall old v c.id]) ≤ 1
        rw [countValidateCalls_append, hE]
        simp [countValidateCalls, Event.isValidateCall]
      | error m =>
        rw [doValidation_of_error c s v old m hval ht hvv]
        show countValidateCalls
          ((ensureValueCached c s).2 ++ [Event.validateCall old v c.id]) ≤ 1
        rw [countValidateCalls_append, hE]
        simp [countValidateCalls, Event.isValidateCall]
    · rw [doValidation_of_falsy c s v old hval (Bool.not_eq_true _ ▸ ht)]
      simp [hE]

theorem set_count_le_one (v : α) :
    countValidateCalls (set c s v).2.2 ≤ 1 := by
  cases hr : c.flags.readonly with
  | true =>
    rw [set_of_readonly c s v hr]
    simp [countValidateCalls]
  | false =>
    cases hv : c.flags.validate with
    | false =>
      rw [set_of_no_validate c s v hr hv]
      simp [countValidateCalls, Event.isValidateCall]
    | true =>
      rcases hdd : doValidation c s v with ⟨res, s1, ev⟩
      have hec : countValidateCalls ev ≤ 1 := by
        have h0 := doValidation_count_le_one c s v
        rw [hdd] at h0
        simpa using h0
      cases res with
      | error e =>
        rw [set_of_validate_error c s v e s1 ev hr hv hdd]
        simpa using hec
      | ok u =>
        rw [set_of_validate_ok c s v u s1 ev hr hv hdd]
        simpa [countValidateCalls_append, countValidateCalls, Event.isValidateCall]
          using hec

theorem set_events (v : α) :
    ∀ e ∈ (set c s v).2.2,
      e = Event.existsCheck c.path ∨ e = Event.readOp c.path ∨
        e = Event.writeOp c.path v ∨
        ∃ old, e = Event.validateCall old v c.id ∧
          c.truthy old = true ∧ c.truthy v = true := by
  intro e he
  cases hr : c.flags.readonly with
  | true =>
    rw [set_of_readonly c s v hr] at he
    simp at he
  | false =>
    cases hv : c.flags.validate with
    | false =>
      rw [set_of_no_validate c s v hr hv] at he
      simp at he
      exact Or.inr (Or.inr (Or.inl he))
    | true =>
      rcases hdd : doValidation c s v with ⟨res, s1, ev⟩
      have hev : ∀ x ∈ ev,
          x = Event.existsCheck c.path ∨ x = Event.readOp c.path ∨
            ∃ old, x = Event.validateCall old v c.id ∧
              c.truthy old = true ∧ c.truthy v = true := by
        have h0 := doValidation_events c s v
        rw [hdd] at h0
        simpa using h0
      cases res with
      | error err =>
        rw [set_of_validate_error c s v err s1 ev hr hv hdd] at he
        rcases hev e he with h | h | h
        · exact Or.inl h
        · exact Or.inr (Or.inl h)
        · exact Or.inr (Or.inr (Or.inr h))
      | ok u =>
        rw [set_of_validate_ok c s v u s1 ev hr hv hdd] at he
        rcases List.mem_append.mp he with h | h
        · rcases hev e h with h' | h' | h'
          · exact Or.inl h'
          · exact Or.inr (Or.inl h')
          · exact Or.inr (Or.inr (Or.inr h'))
        · simp at h
          exact Or.inr (Or.inr (Or.inl h))

theorem getWithSet_events (cand : α) :
    ∀ e ∈ (getWithSet c s cand).2.2,
      e = Event.existsCheck c.path ∨ e = Event.readOp c.path ∨
        e = Event.writeOp c.path cand ∨
        ∃ old, e = Event.validateCall old cand c.id ∧
          c.truthy old = true ∧ c.truthy cand = true := by
  intro e he
  have hensure := ensure_events c s
  cases hcond : (c.flags.validate || !(c.optTruthy (ensureValueCached c s).1.value)) with
  | false =>
    rw [getWithSet_of_skip c s cand hcond] at he
    rcases hensure e he with h | h
    · exact Or.inl h
    · exact Or.inr (Or.inl h)
  | true =>
    cases hr : c.flags.readonly with
    | false =>
      rcases hset : set c (ensureValueCached c s).1 cand with ⟨res, s3, ev3⟩
      have hev3 : ∀ x ∈ ev3,
          x = Event.existsCheck c.path ∨ x = Event.readOp c.path ∨
            x = Event.writeOp c.path cand ∨
            ∃ old, x = Event.validateCall old cand c.id ∧
              c.truthy old = true ∧ c.truthy cand = true := by
        have h0 := set_events c (ensureValueCached c s).1 cand
        rw [hset] at h0
        simpa using h0
      cases res with
      | error err =>
        rw [getWithSet_of_writable_error c s cand err s3 ev3 hr hcond hset] at he
        rcases List.mem_append.mp he with h | h
        · rcases hensure e h with h' | h'
          · exact Or.inl h'
          · exact Or.inr (Or.inl h')
        · exact hev3 e h
      | ok u =>
        rw [getWithSet_of_writable_ok c s cand u s3 ev3 hr hcond hset] at he
        rcases List.mem_append.mp he with h | h
        · rcases hensure e h with h' | h'
          · exact Or.inl h'
          · exact Or.inr (Or.inl h')
        · exact hev3 e h
    | true =>
      cases hv : c.flags.validate with
      | true =>
        rcases hdd : doValidation c (ensureValueCached c s).1 cand with ⟨res, s2, ev2⟩
        have hev2 : ∀ x ∈ ev2,
            x = Event.existsCheck c.path ∨ x = Event.readOp c.path ∨
              ∃ old, x = Event.validateCall old cand c.id ∧
                c.truthy old = true ∧ c.truthy cand = true := by
          have h0 := doValidation_events c (ensureValueCached c s).1 cand
          rw [hdd] at h0
          simpa using h0
        cases res with
        | error err =>
          rw [getWithSet_of_ro_validate_error c s cand err s2 ev2 hr hv hdd] at he
          rcases List.mem_append.mp he with h | h
          · rcases hensure e h with h' | h'
            · exact Or.inl h'
            · exact Or.inr (Or.inl h')
          · rcases hev2 e h with h' | h' | h'
            · exact Or.inl h'
            · exact Or.inr (Or.inl h')
            · exact Or.inr (Or.inr (Or.inr h'))
        | ok u =>
          rw [getWithSet_of_ro_validate_ok c s cand u s2 ev2 hr hv hdd] at he
          rcases List.mem_append.mp he with h | h
          · rcases hensure e h with h' | h'
            · exact Or.inl h'
            · exact Or.inr (Or.inl h')
          · rcases hev2 e h with h' | h' | h'
            · exact Or.inl h'
            · exact Or.inr (Or.inl h')
            · exact Or.inr (Or.inr (Or.inr h'))
      | false =>
        have hopt : c.optTruthy (ensureValueCached c s).1.value = false := by
          rw [hv] at hcond
          simpa using hcond
        rw [getWithSet_of_ro_no_validate_absent c s cand hr hv hopt] at he
        rcases hensure e he with h | h
        · exact Or.inl h
        · exact Or.inr (Or.inl h)

end StoreProxy

/-! ### Claim theorems -/

/-- C2: on every read-only store, `set(v)` fails with a
`ReadonlyStoreError` whose message embeds the proxy key and the owning
namespace identifier, leaves the whole state (cache slot and backing
storage) exactly as it was, and performs no adapter invocation at all —
in particular no `write`. -/
theorem C2_set_readonly_rejects {α : Type} (c : ProxyCtx α) (s : PState α)
    (v : α) (hr : c.flags.readonly = true) :
    StoreProxy.set c s v =
      (.error (.readonlyStore (readonlyMessage c.id c.identifier)), s, []) ∧
    (∃ x y, readonlyMessage c.id c.identifier = x ++ c.id ++ y) ∧
    (∃ x y, readonlyMessage c.id c.identifier = x ++ c.identifier ++ y) := by
  refine ⟨StoreProxy.set_of_readonly c s v hr,
    ⟨"Unable to set value for \"",
      "\" under \"" ++ c.identifier ++ "\" because the store is in read-only mode.",
      ?_⟩,
    ⟨"Unable to set value for \"" ++ c.id ++ "\" under \"",
      "\" because the store is in read-only mode.", ?_⟩⟩ <;>
  simp [readonlyMessage, String.append_assoc]

/-- Witness for C2: the read-only demo store rejects `set 1`, leaving
state untouched and issuing no adapter call. -/
theorem C2_set_readonly_rejects_witness :
    (demoCtx ⟨true, false⟩ okStrategy).flags.readonly = true ∧
    (StoreProxy.set (demoCtx ⟨true, false⟩ okStrategy) (PState.init []) 1 =
        (.error (.readonlyStore (readonlyMessage "k" "ns")), PState.init [], []) ∧
      (∃ x y, readonlyMessage "k" "ns" = x ++ "k" ++ y) ∧
      (∃ x y, readonlyMessage "k" "ns" = x ++ "ns" ++ y)) :=
  ⟨rfl, C2_set_readonly_rejects (demoCtx ⟨true, false⟩ okStrategy) (PState.init []) 1 rfl⟩

/-- C3: on a writable validating store, when the cached old value and
the new value are both present (truthy) and the strategy's `validate`
throws, `set` fails with a `ValidationError` embedding the proxy key
and the namespace identifier, the state (backing storage entry and
cached value alike) is exactly the pre-call state, and the only
recorded invocation is the strategy call — no adapter `write`. -/
theorem C3_set_validation_failure_aborts {α : Type} (c : ProxyCtx α)
    (s : PState α) (old newV : α) (m : String)
    (hr : c.flags.readonly = false) (hvf : c.flags.validate = true)
    (hc : s.isValueCached = true) (hval : s.value = some old)
    (ht : c.truthy old = true) (htn : c.truthy newV = true)
    (hstrat : c.validate old newV c.id = .error m) :
    StoreProxy.set c s newV =
      (.error (.validation (validationMessage c.id c.identifier m)), s,
        [Event.validateCall old newV c.id]) ∧
    (∃ x y, validationMessage c.id c.identifier m = x ++ c.id ++ y) ∧
    (∃ x y, validationMessage c.id c.identifier m = x ++ c.identifier ++ y) := by
  have hd := StoreProxy.doValidation_cached_error c s newV old m hc hval ht htn hstrat
  refine ⟨StoreProxy.set_of_validate_error c s newV _ s _ hr hvf hd,
    ⟨"Validation failed for \"",
      "\" under \"" ++ c.identifier ++ "\": " ++ m, ?_⟩,
    ⟨"Validation failed for \"" ++ c.id ++ "\" under \"",
      "\": " ++ m, ?_⟩⟩ <;>
  simp [validationMessage, String.append_assoc]

/-- Witness for C3: the rejecting strategy aborts `set 4` over cached
old value `3`, leaving the state untouched. -/
theorem C3_set_validation_failure_aborts_witness :
    ((demoCtx ⟨false, true⟩ rejectStrategy).flags.readonly = false ∧
      (demoCtx ⟨false, true⟩ rejectStrategy).flags.validate = true ∧
      (PState.mk [("ns/k", 3)] (some 3) true : PState Nat).isValueCached = true ∧
      (PState.mk [("ns/k", 3)] (some 3) true : PState Nat).value = some 3 ∧
      natTruthy 3 = true ∧ natTruthy 4 = true ∧
      rejectStrategy 3 4 "k" = .error "boom") ∧
    (StoreProxy.set (demoCtx ⟨false, true⟩ rejectStrategy)
        (PState.mk [("ns/k", 3)] (some 3) true) 4 =
        (.error (.validation (validationMessage "k" "ns" "boom")),
          PState.mk [("ns/k", 3)] (some 3) true,
          [Event.validateCall 3 4 "k"]) ∧
      (∃ x y, validationMessage "k" "ns" "boom" = x ++ "k" ++ y) ∧
      (∃ x y, validationMessage "k" "ns" "boom" = x ++ "ns" ++ y)) :=
  ⟨⟨rfl, rfl, rfl, rfl, rfl, rfl, rfl⟩,
    C3_set_validation_failure_aborts (demoCtx ⟨false, true⟩ rejectStrategy)
      (PState.mk [("ns/k", 3)] (some 3) true) 3 4 "boom"
      rfl rfl rfl rfl rfl rfl rfl⟩

theorem append_cancel_right_str {x y z : String} (h : x ++ z = y ++ z) : x = y := by
  apply String.ext
  have hd := congrArg String.data h
  simp only [String.data_append] at hd
  exact List.append_cancel_right hd

theorem append_cancel_left_str {x y z : String} (h : x ++ y = x ++ z) : y = z := by
  apply String.ext
  have hd := congrArg String.data h
  simp only [String.data_append] at hd
  exact List.append_cancel_left hd

theorem slash_append_ne_empty (i a : String) : i ++ "/" ++ a ≠ "" := by
  intro h
  have hlen := congrArg String.length h
  have h1 : ("/" : String).length = 1 := rfl
  have h0 : ("" : String).length = 0 := rfl
  simp only [String.length_append, h0] at hlen
  omega

theorem pathJoin_ne_empty {i a : String} (ha : a ≠ "") : pathJoin i a ≠ "" := by
  unfold pathJoin
  split
  · exact ha
  · exact slash_append_ne_empty i a

theorem pathJoin_assoc {i a : String} (k : String) (ha : a ≠ "") :
    pathJoin (pathJoin i a) k = pathJoin i (pathJoin a k) := by
  by_cases hi : i = ""
  · subst hi
    simp [pathJoin, ha]
  · have h1 : pathJoin i a = i ++ "/" ++ a := by
      unfold pathJoin; rw [if_neg hi]
    have h2 : pathJoin a k = a ++ "/" ++ k := by
      unfold pathJoin; rw [if_neg ha]
    rw [h1, h2]
    unfold pathJoin
    rw [if_neg (slash_append_ne_empty i a), if_neg hi]
    simp [String.append_assoc]

theorem pathJoin_left_inj {i a b : String} (h : pathJoin i a = pathJoin i b) :
    a = b := by
  unfold pathJoin at h
  by_cases hi : i = ""
  · rwa [if_pos hi, if_pos hi] at h
  · rw [if_neg hi, if_neg hi] at h
    exact append_cancel_left_str h

theorem pathJoin_key_inj {x y k : String} (hx : x ≠ "") (hy : y ≠ "")
    (h : pathJoin x k = pathJoin y k) : x = y := by
  unfold pathJoin at h
  rw [if_neg hx, if_neg hy] at h
  exact append_cancel_right_str (append_cancel_right_str h)

/-- C1: on every store with `readonly = true` and `validate = true`, a
`getWithSet` call never invokes the adapter's `write` and leaves the
backing storage identical to its pre-call state; and when the stored
old value and the computed candidate are both present (truthy) and
the strategy rejects the candidate, the call surfaces the
corresponding `ValidationError`. -/
theorem C1_getWithSet_inspect_only {α : Type} (c : ProxyCtx α)
    (s : PState α) (cand : α)
    (hr : c.flags.readonly = true) (hv : c.flags.validate = true) :
    (StoreProxy.getWithSet c s cand).2.1.storage = s.storage ∧
    (∀ e ∈ (StoreProxy.getWithSet c s cand).2.2, e.isWrite = false) ∧
    (∀ old m, s.isValueCached = false →
      s.storage.lookup c.path = some old →
      c.truthy old = true → c.truthy cand = true →
      c.validate old cand c.id = .error m →
      (StoreProxy.getWithSet c s cand).1 =
        .error (.validation (validationMessage c.id c.identifier m))) := by
  rcases hdd : StoreProxy.doValidation c (StoreProxy.ensureValueCached c s).1 cand
    with ⟨res, s2, ev2⟩
  have hs2 : s2 = (StoreProxy.ensureValueCached c s).1 := by
    have h1 := StoreProxy.doValidation_state c (StoreProxy.ensureValueCached c s).1 cand
    rw [hdd, StoreProxy.ensure_of_cached c _ (StoreProxy.ensure_isValueCached c s)] at h1
    exact h1
  have hev2 : ∀ x ∈ ev2,
      x = Event.existsCheck c.path ∨ x = Event.readOp c.path ∨
        ∃ old, x = Event.validateCall old cand c.id ∧
          c.truthy old = true ∧ c.truthy cand = true := by
    have h0 := StoreProxy.doValidation_events c (StoreProxy.ensureValueCached c s).1 cand
    rw [hdd] at h0
    simpa using h0
  have hstore : s2.storage = s.storage := by
    rw [hs2]; exact StoreProxy.ensure_storage c s
  refine ⟨?_, ?_, ?_⟩
  · cases res with
    | error e =>
      rw [StoreProxy.getWithSet_of_ro_validate_error c s cand e s2 ev2 hr hv hdd]
      exact hstore
    | ok u =>
      rw [StoreProxy.getWithSet_of_ro_validate_ok c s cand u s2 ev2 hr hv hdd]
      exact hstore
  · have hmem : ∀ e ∈ (StoreProxy.ensureValueCached c s).2 ++ ev2,
        Event.isWrite e = false := by
      intro e he
      rcases List.mem_append.mp he with h | h
      · rcases StoreProxy.ensure_events c s e h with h' | h' <;>
          simp [h', Event.isWrite]
      · rcases hev2 e h with h' | h' | ⟨old, h', _, _⟩ <;>
          simp [h', Event.isWrite]
    cases res with
    | error e =>
      rw [StoreProxy.getWithSet_of_ro_validate_error c s cand e s2 ev2 hr hv hdd]
      exact hmem
    | ok u =>
      rw [StoreProxy.getWithSet_of_ro_validate_ok c s cand u s2 ev2 hr hv hdd]
      exact hmem
  · intro old m hnc hl ht htc hstrat
    have he := StoreProxy.ensure_of_hit c s old hnc hl
    have hval' : (StoreProxy.ensureValueCached c s).1.value = some old := by
      rw [he]
    have hderr := StoreProxy.doValidation_cached_error c
      (StoreProxy.ensureValueCached c s).1 cand old m
      (StoreProxy.ensure_isValueCached c s) hval' ht htc hstrat
    rw [StoreProxy.getWithSet_of_ro_validate_error c s cand _ _ _ hr hv hderr]

/-- Witness for C1: under `readonly = true, validate = true`, a
rejected candidate surfaces the validation error while the backing
storage is unchanged and no write event is recorded. -/
theorem C1_getWithSet_inspect_only_witness :
    ((demoCtx ⟨true, true⟩ rejectStrategy).flags.readonly = true ∧
      (demoCtx ⟨true, true⟩ rejectStrategy).flags.validate = true ∧
      (PState.init [("ns/k", 3)] : PState Nat).isValueCached = false ∧
      (PState.init [("ns/k", 3)] : PState Nat).storage.lookup "ns/k" = some 3 ∧
      natTruthy 3 = true ∧ natTruthy 4 = true ∧
      rejectStrategy 3 4 "k" = .error "boom") ∧
    ((StoreProxy.getWithSet (demoCtx ⟨true, true⟩ rejectStrategy)
        (PState.init [("ns/k", 3)]) 4).2.1.storage = [("ns/k", 3)] ∧
      (StoreProxy.getWithSet (demoCtx ⟨true, true⟩ rejectStrategy)
        (PState.init [("ns/k", 3)]) 4).1 =
        .error (.validation (validationMessage "k" "ns" "boom"))) :=
  ⟨⟨rfl, rfl, rfl, rfl, rfl, rfl, rfl⟩,
    ⟨(C1_getWithSet_inspect_only (demoCtx ⟨true, true⟩ rejectStrategy)
        (PState.init [("ns/k", 3)]) 4 rfl rfl).1,
      (C1_getWithSet_inspect_only (demoCtx ⟨true, true⟩ rejectStrategy)
        (PState.init [("ns/k", 3)]) 4 rfl rfl).2.2 3 "boom" rfl rfl rfl rfl rfl⟩⟩

/-- C4: on every proxy instance the first `get()` issues exactly one
adapter `exists` check for the proxy's key, follows it with a `read` if
and only if `exists` reported presence, populates the cache slot with
the stored value, and marks the slot cached; and on any state whose
slot is already cached (any subsequent `get()` on the same instance,
whatever the store's flags), `get()` returns the in-memory value with
an empty adapter trace and an unchanged state. -/
theorem C4_get_loads_at_most_once {α : Type} (c : ProxyCtx α)
    (m : List (String × α)) :
    ((StoreProxy.get c (PState.init m)).2.2 =
        Event.existsCheck c.path ::
          (if (m.lookup c.path).isSome then [Event.readOp c.path] else []) ∧
      (StoreProxy.get c (PState.init m)).1 = m.lookup c.path ∧
      (StoreProxy.get c (PState.init m)).2.1.isValueCached = true) ∧
    (∀ s : PState α, s.isValueCached = true →
      StoreProxy.get c s = (s.value, s, [])) := by
  constructor
  · cases hl : m.lookup c.path with
    | none =>
      have he := StoreProxy.ensure_of_miss c (PState.init m) rfl hl
      simp only [StoreProxy.get, he]
      simp [hl, PState.init]
    | some v =>
      have he := StoreProxy.ensure_of_hit c (PState.init m) v rfl hl
      simp only [StoreProxy.get, he]
      simp [hl, PState.init]
  · exact fun s h => StoreProxy.get_of_cached c s h

/-- Witness for C4: a concrete cached state on which `get()` returns
the in-memory value with no adapter invocation. -/
theorem C4_get_loads_at_most_once_witness :
    (PState.mk [("ns/k", 5)] (some 7) true : PState Nat).isValueCached = true ∧
      StoreProxy.get (demoCtx ⟨true, true⟩ okStrategy)
        (PState.mk [("ns/k", 5)] (some 7) true) =
        (some 7, PState.mk [("ns/k", 5)] (some 7) true, []) :=
  ⟨rfl,
    (C4_get_loads_at_most_once (demoCtx ⟨true, true⟩ okStrategy) [("ns/k", 5)]).2
      (PState.mk [("ns/k", 5)] (some 7) true) rfl⟩

theorem diffing_errors_foldl (l : List Change) (acc : List String) :
    l.foldl (fun acc change =>
        if change.isOffending then acc ++ [change.message] else acc) acc =
      acc ++ (l.filter Change.isOffending).map Change.message := by
  induction l generalizing acc with
  | nil => simp
  | cons ch t ih =>
    cases h : ch.isOffending <;>
      simp [h, ih, List.filter_cons]

/-- C7: `GraphQLSchemaWithDiffing.validate` (over whatever change list
the external diff returns) throws one aggregate error whose messages
are exactly the messages of all Breaking/Dangerous changes, in order —
it never stops at the first offending change — and returns normally
when no change is Breaking or Dangerous. -/
theorem C7_diffing_validate_aggregates (changes : List Change) :
    graphQLSchemaWithDiffingValidate changes =
      if changes.filter Change.isOffending = [] then .ok ()
      else .error ((changes.filter Change.isOffending).map Change.message) := by
  unfold graphQLSchemaWithDiffingValidate
  rw [diffing_errors_foldl]
  simp only [List.nil_append]
  by_cases h : changes.filter Change.isOffending = []
  · rw [h]
    simp
  · rw [if_neg h]
    simp [List.length_eq_zero, h]

/-- C5 (amended): in validate+writable mode, `getWithSet` persists via
`set`, and the strategy's `validate` runs at most once per call — the
getWithSet-level validation step is additionally gated on `readonly`,
so it cannot add a second invocation when the store is writable. -/
theorem C5_getWithSet_validates_at_most_once {α : Type} (c : ProxyCtx α)
    (s : PState α) (cand : α)
    (hv : c.flags.validate = true) (hr : c.flags.readonly = false) :
    countValidateCalls (StoreProxy.getWithSet c s cand).2.2 ≤ 1 := by
  have hcond : (c.flags.validate ||
      !(c.optTruthy (StoreProxy.ensureValueCached c s).1.value)) = true := by
    rw [hv]
    rfl
  rcases hset : StoreProxy.set c (StoreProxy.ensureValueCached c s).1 cand
    with ⟨res, s3, ev3⟩
  have hev3 : countValidateCalls ev3 ≤ 1 := by
    have h0 := StoreProxy.set_count_le_one c (StoreProxy.ensureValueCached c s).1 cand
    rw [hset] at h0
    simpa using h0
  have hE := StoreProxy.ensure_count_validate c s
  cases res with
  | error e =>
    rw [StoreProxy.getWithSet_of_writable_error c s cand e s3 ev3 hr hcond hset]
    show countValidateCalls ((StoreProxy.ensureValueCached c s).2 ++ ev3) ≤ 1
    rw [StoreProxy.countValidateCalls_append, hE]
    simpa using hev3
  | ok u =>
    rw [StoreProxy.getWithSet_of_writable_ok c s cand u s3 ev3 hr hcond hset]
    show countValidateCalls ((StoreProxy.ensureValueCached c s).2 ++ ev3) ≤ 1
    rw [StoreProxy.countValidateCalls_append, hE]
    simpa using hev3

/-- Counterexample to C5 as stated: in the most favorable
validate+writable run — cached truthy old value, truthy accepted
candidate, so `set` persists and validates — a single `getWithSet`
records exactly one strategy `validate` invocation, not two. -/
theorem C5_counterexample_single_validation :
    countValidateCalls (StoreProxy.getWithSet (demoCtx ⟨false, true⟩ okStrategy)
        (PState.mk [("ns/k", 3)] (some 3) true) 4).2.2 = 1 ∧
    countValidateCalls (StoreProxy.getWithSet (demoCtx ⟨false, true⟩ okStrategy)
        (PState.mk [("ns/k", 3)] (some 3) true) 4).2.2 ≠ 2 := by
  constructor <;> decide

/-- Witness for the amended C5 on a concrete validate+writable run. -/
theorem C5_getWithSet_validates_at_most_once_witness :
    ((demoCtx ⟨false, true⟩ okStrategy).flags.validate = true ∧
      (demoCtx ⟨false, true⟩ okStrategy).flags.readonly = false) ∧
    countValidateCalls (StoreProxy.getWithSet (demoCtx ⟨false, true⟩ okStrategy)
        (PState.mk [("ns/k", 5)] (some 5) true) 6).2.2 ≤ 1 :=
  ⟨⟨rfl, rfl⟩,
    C5_getWithSet_validates_at_most_once (demoCtx ⟨false, true⟩ okStrategy)
      (PState.mk [("ns/k", 5)] (some 5) true) 6 rfl rfl⟩

/-- C6: a strategy `validate` invocation is recorded by `set` or
`getWithSet` only with a truthy (in particular present) old value and a
truthy new value; and the first write — nothing cached, no stored
entry — under `validate = true` succeeds with no `validate` invocation
at all (its exact trace is the existence check plus the write). -/
theorem C6_validation_needs_both_values {α : Type} (c : ProxyCtx α)
    (s : PState α) (v cand : α) :
    (∀ old nv i, Event.validateCall old nv i ∈ (StoreProxy.set c s v).2.2 →
        c.truthy old = true ∧ c.truthy nv = true) ∧
    (∀ old nv i, Event.validateCall old nv i ∈ (StoreProxy.getWithSet c s cand).2.2 →
        c.truthy old = true ∧ c.truthy nv = true) ∧
    (c.flags.validate = true → c.flags.readonly = false →
      s.isValueCached = false → s.value = none →
      s.storage.lookup c.path = none →
      StoreProxy.set c s v =
        (.ok (), ⟨mapSet s.storage c.path v, some v, true⟩,
          [Event.existsCheck c.path, Event.writeOp c.path v])) := by
  refine ⟨?_, ?_, ?_⟩
  · intro old nv i hmem
    rcases StoreProxy.set_events c s v _ hmem with h | h | h | ⟨old', h, h1, h2⟩
    · exact Event.noConfusion h
    · exact Event.noConfusion h
    · exact Event.noConfusion h
    · obtain ⟨h0, hnv, _⟩ : old = old' ∧ nv = v ∧ i = c.id := by
        simpa using h
      subst h0
      subst hnv
      exact ⟨h1, h2⟩
  · intro old nv i hmem
    rcases StoreProxy.getWithSet_events c s cand _ hmem with h | h | h | ⟨old', h, h1, h2⟩
    · exact Event.noConfusion h
    · exact Event.noConfusion h
    · exact Event.noConfusion h
    · obtain ⟨h0, hnv, _⟩ : old = old' ∧ nv = cand ∧ i = c.id := by
        simpa using h
      subst h0
      subst hnv
      exact ⟨h1, h2⟩
  · intro hv hr hnc hval0 hl
    have he := StoreProxy.ensure_of_miss c s hnc hl
    have hvn : (StoreProxy.ensureValueCached c s).1.value = none := by
      rw [he]
      exact hval0
    have hd := StoreProxy.doValidation_of_none c s v hvn
    rw [he] at hd
    simp only at hd
    have hs := StoreProxy.set_of_validate_ok c s v () _ _ hr hv hd
    rw [hs]
    rfl

/-- Witness for C6: the very first write under `validate = true`
succeeds and records no strategy invocation. -/
theorem C6_validation_needs_both_values_witness :
    ((demoCtx ⟨false, true⟩ okStrategy).flags.validate = true ∧
      (demoCtx ⟨false, true⟩ okStrategy).flags.readonly = false ∧
      (PState.init [] : PState Nat).isValueCached = false ∧
      (PState.init [] : PState Nat).value = none ∧
      (PState.init ([] : List (String × Nat))).storage.lookup "ns/k" = none) ∧
    StoreProxy.set (demoCtx ⟨false, true⟩ okStrategy) (PState.init []) 7 =
      (.ok (), ⟨[("ns/k", 7)], some 7, true⟩,
        [Event.existsCheck "ns/k", Event.writeOp "ns/k" 7]) :=
  ⟨⟨rfl, rfl, rfl, rfl, rfl⟩,
    (C6_validation_needs_both_values (demoCtx ⟨false, true⟩ okStrategy)
      (PState.init []) 7 0).2.2 rfl rfl rfl rfl rfl⟩

/-- C8: child namespaces compose with direct proxy keys
(`s.child(a).proxy(k)` addresses the same storage key as
`s.proxy(join(a,k))`), distinct child identifiers give disjoint storage
keys for the same proxy key, and `child(a, overrides)` builds a node
with the joined identifier, the same shared adapter reference, and the
parent's flags shallow-merged with the overrides — the parent node is
not modified (it is immutable in this model, and `child` only
constructs a fresh record). Nonempty segment identifiers are assumed,
matching the spec's `root/child/key` shape. -/
theorem C8_child_namespace_algebra {ρ : Type} (s : MeshStore ρ)
    (a b k : String) (o : PartialStoreFlags)
    (hab : a ≠ b) (ha : a ≠ "") (hb : b ≠ "") :
    (s.child a).proxyPath k = s.proxyPath (pathJoin a k) ∧
    (s.child a).proxyPath k ≠ (s.child b).proxyPath k ∧
    (s.child a o).identifier = pathJoin s.identifier a ∧
    (s.child a o).storage = s.storage ∧
    (s.child a o).flags = mergeFlags s.flags o := by
  refine ⟨?_, ?_, rfl, rfl, rfl⟩
  · show pathJoin (pathJoin s.identifier a) k = pathJoin s.identifier (pathJoin a k)
    exact pathJoin_assoc k ha
  · show pathJoin (pathJoin s.identifier a) k ≠ pathJoin (pathJoin s.identifier b) k
    intro h
    exact hab (pathJoin_left_inj
      (pathJoin_key_inj (pathJoin_ne_empty ha) (pathJoin_ne_empty hb) h))

/-- Witness for C8 on the concrete root store. -/
theorem C8_child_namespace_algebra_witness :
    (("a" : String) ≠ "b" ∧ ("a" : String) ≠ "" ∧ ("b" : String) ≠ "") ∧
    ((demoStore.child "a").proxyPath "k" = demoStore.proxyPath (pathJoin "a" "k") ∧
      (demoStore.child "a").proxyPath "k" ≠ (demoStore.child "b").proxyPath "k" ∧
      (demoStore.child "a" ⟨some true, none⟩).identifier = pathJoin "root" "a" ∧
      (demoStore.child "a" ⟨some true, none⟩).storage = 0 ∧
      (demoStore.child "a" ⟨some true, none⟩).flags =
        mergeFlags demoStore.flags ⟨some true, none⟩) :=
  ⟨⟨by decide, by decide, by decide⟩,
    C8_child_namespace_algebra demoStore "a" "b" "k" ⟨some true, none⟩
      (by decide) (by decide) (by decide)⟩

/-- C9: `delete()` delegates directly to the adapter's `delete` for the
proxy's key with no `readonly` gate (the statement holds for every flag
combination, read-only stores included), and leaves the in-memory cache
slot untouched — so a previously cached value is still returned, stale,
by a subsequent `get()` on the same instance. -/
theorem C9_delete_unguarded {α : Type} (c : ProxyCtx α) (s : PState α) :
    StoreProxy.del c s =
      ({ s with storage := mapDelete s.storage c.path }, [Event.deleteOp c.path]) ∧
    (StoreProxy.del c s).1.value = s.value ∧
    (StoreProxy.del c s).1.isValueCached = s.isValueCached ∧
    (∀ v, s.isValueCached = true → s.value = some v →
      (StoreProxy.get c (StoreProxy.del c s).1).1 = some v) := by
  refine ⟨rfl, rfl, rfl, ?_⟩
  intro v hc hval
  have hcached : (StoreProxy.del c s).1.isValueCached = true := hc
  rw [StoreProxy.get_of_cached c _ hcached]
  exact hval

/-- Witness for C9: deleting under `readonly = true` still clears the
storage entry, and the stale cached value is still served by `get`. -/
theorem C9_delete_unguarded_witness :
    ((PState.mk [("ns/k", 9)] (some 9) true : PState Nat).isValueCached = true ∧
      (PState.mk [("ns/k", 9)] (some 9) true : PState Nat).value = some 9 ∧
      (demoCtx ⟨true, false⟩ okStrategy).flags.readonly = true) ∧
    (StoreProxy.del (demoCtx ⟨true, false⟩ okStrategy)
        (PState.mk [("ns/k", 9)] (some 9) true) =
      (PState.mk [] (some 9) true, [Event.deleteOp "ns/k"]) ∧
      (StoreProxy.get (demoCtx ⟨true, false⟩ okStrategy)
        (StoreProxy.del (demoCtx ⟨true, false⟩ okStrategy)
          (PState.mk [("ns/k", 9)] (some 9) true)).1).1 = some 9) :=
  ⟨⟨rfl, rfl, rfl⟩,
    ⟨(C9_delete_unguarded (demoCtx ⟨true, false⟩ okStrategy)
        (PState.mk [("ns/k", 9)] (some 9) true)).1,
      (C9_delete_unguarded (demoCtx ⟨true, false⟩ okStrategy)
        (PState.mk [("ns/k", 9)] (some 9) true)).2.2.2 9 rfl rfl⟩⟩

theorem eventViews {α : Type} (path id : String) (e : Event α)
    (hshape : e = Event.existsCheck path ∨ e = Event.readOp path ∨
      (∃ d, e = Event.writeOp path d) ∨
      (∃ old nv, e = Event.validateCall old nv id) ∨
      e = Event.deleteOp path) :
    (∀ old nv i, e = Event.validateCall old nv i → i = id) ∧
    (∀ k2, (e = Event.existsCheck k2 ∨ e = Event.readOp k2 ∨
      e = Event.deleteOp k2) → k2 = path) ∧
    (∀ k2 d, e = Event.writeOp k2 d → k2 = path) := by
  rcases hshape with h | h | ⟨d, h⟩ | ⟨old, nv, h⟩ | h <;> subst h
  · refine ⟨fun _ _ _ heq => Event.noConfusion heq, ?_,
      fun _ _ heq => Event.noConfusion heq⟩
    rintro k2 (heq | heq | heq)
    · injection heq with h1
      exact h1.symm
    · exact Event.noConfusion heq
    · exact Event.noConfusion heq
  · refine ⟨fun _ _ _ heq => Event.noConfusion heq, ?_,
      fun _ _ heq => Event.noConfusion heq⟩
    rintro k2 (heq | heq | heq)
    · exact Event.noConfusion heq
    · injection heq with h1
      exact h1.symm
    · exact Event.noConfusion heq
  · refine ⟨fun _ _ _ heq => Event.noConfusion heq, ?_, ?_⟩
    · rintro k2 (heq | heq | heq) <;> exact Event.noConfusion heq
    · intro k2 d2 heq
      injection heq with h1 _
      exact h1.symm
  · refine ⟨?_, ?_, fun _ _ heq => Event.noConfusion heq⟩
    · intro old2 nv2 i heq
      injection heq with _ _ h3
      exact h3.symm
    · rintro k2 (heq | heq | heq) <;> exact Event.noConfusion heq
  · refine ⟨fun _ _ _ heq => Event.noConfusion heq, ?_,
      fun _ _ heq => Event.noConfusion heq⟩
    rintro k2 (heq | heq | heq)
    · exact Event.noConfusion heq
    · exact Event.noConfusion heq
    · injection heq with h1
      exact h1.symm

/-- C10: across all four proxy operations, every strategy `validate`
invocation receives the bare proxy key `id` while every adapter
operation receives the joined key `join(identifier, id)`; the
filesystem adapter's `write` hands its (joined) key on to `codify`;
and the two identifier views differ whenever the owning node's
identifier is nonempty. -/
theorem C10_identifier_views {α : Type} (c : ProxyCtx α) (s : PState α)
    (v cand : α) (ext : String) (codify : α → String → String)
    (key : String) (data : α) :
    (∀ e ∈ (StoreProxy.set c s v).2.2 ++ (StoreProxy.get c s).2.2 ++
        (StoreProxy.getWithSet c s cand).2.2 ++ (StoreProxy.del c s).2,
      (∀ old nv i, e = Event.validateCall old nv i → i = c.id) ∧
      (∀ k2, (e = Event.existsCheck k2 ∨ e = Event.readOp k2 ∨
        e = Event.deleteOp k2) → k2 = c.path) ∧
      (∀ k2 d, e = Event.writeOp k2 d → k2 = c.path)) ∧
    fsWrite ext codify key data = (getWrittenFileName ext key, codify data key) ∧
    (c.identifier ≠ "" → c.path ≠ c.id) := by
  refine ⟨?_, rfl, ?_⟩
  · intro e he
    apply eventViews c.path c.id e
    rcases List.mem_append.mp he with he1 | hdel
    · rcases List.mem_append.mp he1 with he2 | hgws
      · rcases List.mem_append.mp he2 with hsetm | hget
        · rcases StoreProxy.set_events c s v e hsetm with h | h | h | ⟨old, h, _, _⟩
          · exact Or.inl h
          · exact Or.inr (Or.inl h)
          · exact Or.inr (Or.inr (Or.inl ⟨v, h⟩))
          · exact Or.inr (Or.inr (Or.inr (Or.inl ⟨old, v, h⟩)))
        · rcases StoreProxy.ensure_events c s e hget with h | h
          · exact Or.inl h
          · exact Or.inr (Or.inl h)
      · rcases StoreProxy.getWithSet_events c s cand e hgws with h | h | h | ⟨old, h, _, _⟩
        · exact Or.inl h
        · exact Or.inr (Or.inl h)
        · exact Or.inr (Or.inr (Or.inl ⟨cand, h⟩))
        · exact Or.inr (Or.inr (Or.inr (Or.inl ⟨old, cand, h⟩)))
    · have hd : e = Event.deleteOp c.path := by
        simpa [StoreProxy.del] using hdel
      exact Or.inr (Or.inr (Or.inr (Or.inr hd)))
  · intro hi h
    unfold ProxyCtx.path pathJoin at h
    rw [if_neg hi] at h
    have hlen := congrArg String.length h
    have h1 : ("/" : String).length = 1 := rfl
    simp only [String.length_append] at hlen
    omega

/-- Witness for C10: for the demo node (identifier `"ns"`, key `"k"`)
the adapter key differs from the strategy identifier. -/
theorem C10_identifier_views_witness :
    (demoCtx ⟨false, false⟩ okStrategy).identifier ≠ "" ∧
    (demoCtx ⟨false, false⟩ okStrategy).path ≠ (demoCtx ⟨false, false⟩ okStrategy).id :=
  ⟨by decide,
    (C10_identifier_views (demoCtx ⟨false, false⟩ okStrategy) (PState.init [])
      0 0 "mjs" (fun _ k => k) "root/k" 0).2.2 (by decide)⟩

end MeshStoreModel
